import Mathlib

/-!
# Sound anomaly detection — verification of the evaluation pipeline

Shallow embedding of `src/2_custom_autoencoder.ipynb` (sound anomaly
detection with an autoencoder).  Real-valued data is modelled with `ℚ`.
NumPy 2-D arrays are modelled by `Mat` (dimensions plus an entry
function); NumPy float scalars that can be NaN are modelled by `NpFloat`.
The notebook's pandas dataframe of test results is modelled by
`List Row`, one `Row` per test signal, with the mutable `Prediction`
column as an `Option ℚ` field (`none` is the initial NaN).
-/

/-- A 2-D NumPy array: dimensions plus an entry function.  Entries
outside the dimensions are irrelevant. -/
structure Mat where
  rows : ℕ
  cols : ℕ
  entry : ℕ → ℕ → ℚ

/-- NumPy broadcasting compatibility of one axis: the two sizes are
equal, or one of them is 1. -/
def bcCompat (a b : ℕ) : Prop := a = b ∨ a = 1 ∨ b = 1

instance (a b : ℕ) : Decidable (bcCompat a b) := by
  unfold bcCompat
  exact inferInstance

/-- Index into an axis of size `n` after broadcasting: a size-1 axis is
repeated, i.e. always read at index 0. -/
def bIdx (n i : ℕ) : ℕ := if n = 1 then 0 else i

/-- Resulting size of broadcasting two compatible axis sizes. -/
def bdim (a b : ℕ) : ℕ := if a = 1 then b else a

/-- `np.square(A - B)`: element-wise squared difference with NumPy
broadcasting; `none` models the `ValueError` NumPy raises when the
shapes are not broadcast-compatible. -/
def npSquareDiff (A B : Mat) : Option Mat :=
  if bcCompat A.rows B.rows ∧ bcCompat A.cols B.cols then
    some ⟨bdim A.rows B.rows, bdim A.cols B.cols,
      fun i j =>
        (A.entry (bIdx A.rows i) (bIdx A.cols j)
          - B.entry (bIdx B.rows i) (bIdx B.cols j)) ^ 2⟩
  else
    none

/-- `np.mean` of a 1-D array (sum divided by length). -/
def npMean (xs : List ℚ) : ℚ := xs.sum / xs.length

/-- `np.mean(M, axis=1)`: the list of per-row means. -/
def npMeanAxis1 (M : Mat) : List ℚ :=
  (List.range M.rows).map (fun i =>
    ((List.range M.cols).map (fun j => M.entry i j)).sum / M.cols)

/-- The notebook's reconstruction error
`mse = np.mean(np.mean(np.square(eval_features - prediction), axis=1))`;
`none` models the NumPy shape error. -/
def mse (A B : Mat) : Option ℚ :=
  (npSquareDiff A B).map (fun M => npMean (npMeanAxis1 M))

/-- Refinement target, written from the spec's words: the mean over
rows of the per-row mean over columns of the squared element-wise
difference. -/
def specScore (A B : Mat) : ℚ :=
  (((List.range A.rows).map (fun i =>
    (((List.range A.cols).map (fun j => (A.entry i j - B.entry i j) ^ 2)).sum)
      / A.cols)).sum) / A.rows

/-- Convenience constructor for concrete matrices in examples. -/
def Mat.ofList (l : List (List ℚ)) : Mat :=
  ⟨l.length, (l.headD []).length, fun i j => ((l.getD i []).getD j 0)⟩

/-- One row of the notebook's results dataframe `df`: the
`Reconstruction Error`, `Ground Truth` and `Prediction` columns.  The
`Prediction` column starts out unset (NaN), modelled by `none`. -/
structure Row where
  error : ℚ
  label : ℚ
  pred : Option ℚ
deriving DecidableEq

/-- The two assignments of the notebook, executed in order:
`df.loc[df['Reconstruction Error'] <= th, 'Prediction'] = 0.0` then
`df.loc[df['Reconstruction Error'] > th, 'Prediction'] = 1.0`. -/
def assignPredictions (th : ℚ) (df : List Row) : List Row :=
  ((df.map (fun r => if r.error ≤ th then { r with pred := some 0 } else r)).map
    (fun r => if th < r.error then { r with pred := some 1 } else r))

/-- Modelled from the spec: `utils.generate_error_types` (in the
repository's `tools/utils.py`, not available here) marks a row as a
true positive when `label = 1` and `prediction = 1`. -/
def tpFlag (r : Row) : Bool := decide (r.label = 1 ∧ r.pred = some 1)

/-- Modelled from the spec: true negative is `label = 0` and
`prediction = 0`. -/
def tnFlag (r : Row) : Bool := decide (r.label = 0 ∧ r.pred = some 0)

/-- Modelled from the spec: false positive is `label = 0` and
`prediction = 1`. -/
def fpFlag (r : Row) : Bool := decide (r.label = 0 ∧ r.pred = some 1)

/-- Modelled from the spec: false negative is `label = 1` and
`prediction = 0`. -/
def fnFlag (r : Row) : Bool := decide (r.label = 1 ∧ r.pred = some 0)

/-- `df['TP'].sum()` after `utils.generate_error_types(df)`. -/
def tpSum (df : List Row) : ℕ := df.countP tpFlag

/-- `df['TN'].sum()`. -/
def tnSum (df : List Row) : ℕ := df.countP tnFlag

/-- `df['FP'].sum()`. -/
def fpSum (df : List Row) : ℕ := df.countP fpFlag

/-- `df['FN'].sum()`. -/
def fnSum (df : List Row) : ℕ := df.countP fnFlag

/-- The notebook's threshold sweep loop: for each threshold, assign the
`Prediction` column in place on the carried dataframe, then record the
false-positive and false-negative counts.  The result bundles the
notebook's parallel `FP` and `FN` lists as `(threshold, FP, FN)`
triples in loop order. -/
def sweep : List Row → List ℚ → List (ℚ × ℕ × ℕ)
  | _, [] => []
  | df, th :: rest =>
    (th, fpSum (assignPredictions th df), fnSum (assignPredictions th df))
      :: sweep (assignPredictions th df) rest

/-- `np.arange(start, stop, step)` for a positive step: the values
`start + i*step` for `0 ≤ i < ⌈(stop - start)/step⌉`. -/
def arange (start stop step : ℚ) : List ℚ :=
  (List.range (⌈(stop - start) / step⌉).toNat).map (fun i : ℕ => start + (i : ℚ) * step)

/-- The dataframe as the notebook builds it: the `Reconstruction Error`
and `Ground Truth` columns from the evaluation loop, the `Prediction`
column still unset. -/
def mkRows (errors labels : List ℚ) : List Row :=
  (errors.zip labels).map (fun p => ⟨p.1, p.2, none⟩)

/-- The error/label data of a dataframe, forgetting the mutable
`Prediction` column. -/
def pairsOf (df : List Row) : List (ℚ × ℚ) := df.map (fun r => (r.error, r.label))

/-- False positives of an error/label set at a threshold, as a pure
function: `label = 0` and `error > th`. -/
def fpAt (ps : List (ℚ × ℚ)) (th : ℚ) : ℕ :=
  ps.countP (fun p => decide (p.2 = 0 ∧ th < p.1))

/-- False negatives of an error/label set at a threshold, as a pure
function: `label = 1` and `error ≤ th`. -/
def fnAt (ps : List (ℚ × ℚ)) (th : ℚ) : ℕ :=
  ps.countP (fun p => decide (p.2 = 1 ∧ p.1 ≤ th))

/-- The notebook's evaluation at one fixed threshold (the `th = 6.275`
cell): assign predictions, then take the four confusion counts
`(tp, tn, fn, fp)`. -/
def evaluate_at (df : List Row) (th : ℚ) : ℕ × ℕ × ℕ × ℕ :=
  (tpSum (assignPredictions th df), tnSum (assignPredictions th df),
   fnSum (assignPredictions th df), fpSum (assignPredictions th df))

/-- A NumPy float scalar: either NaN or a rational value.  (Infinities
do not arise in the divisions below: every zero denominator there comes
with a zero numerator.) -/
inductive NpFloat where
  | nan : NpFloat
  | num : ℚ → NpFloat
deriving DecidableEq

/-- NumPy float addition: NaN propagates. -/
def NpFloat.add : NpFloat → NpFloat → NpFloat
  | .num a, .num b => .num (a + b)
  | _, _ => .nan

/-- NumPy float multiplication: NaN propagates. -/
def NpFloat.mul : NpFloat → NpFloat → NpFloat
  | .num a, .num b => .num (a * b)
  | _, _ => .nan

/-- NumPy float true division: NaN propagates, and division by zero
yields NaN (all such divisions in the notebook are `0 / 0`). -/
def NpFloat.div : NpFloat → NpFloat → NpFloat
  | .num a, .num b => if b = 0 then .nan else .num (a / b)
  | _, _ => .nan

/-- The notebook's metrics cell at a fixed threshold:
`precision = tp / (tp + fp)`, `recall = tp / (tp + fn)`,
`accuracy = (tp + tn) / (tp + tn + fp + fn)`,
`f1_score = 2 * precision * recall / (precision + recall)`,
with no guard on any denominator.  Returns
`(precision, recall, accuracy, f1_score)`. -/
def metricsAt (df : List Row) (th : ℚ) : NpFloat × NpFloat × NpFloat × NpFloat :=
  let c := evaluate_at df th
  let tp := c.1
  let tn := c.2.1
  let fn := c.2.2.1
  let fp := c.2.2.2
  let precision := NpFloat.div (.num tp) (.num (tp + fp))
  let recall' := NpFloat.div (.num tp) (.num (tp + fn))
  let accuracy := NpFloat.div (.num (tp + tn)) (.num (tp + tn + fp + fn))
  let f1 := NpFloat.div (((NpFloat.num 2).mul precision).mul recall')
    (precision.add recall')
  (precision, recall', accuracy, f1)

/-- The notebook's post-split filtering, applied to the training half
returned by the (external, out-of-scope) stratified split:
`train_files = [f for f in train_files if f not in abnormal_files]`
and `train_labels = np.zeros(len(train_files))`. -/
def build_split (train_files abnormal_files : List String) : List String × List ℚ :=
  let tf := train_files.filter (fun f => decide (¬ f ∈ abnormal_files))
  (tf, List.replicate tf.length 0)

/-- Column `j` of a log-Mel spectrogram with `n_mels` Mel bands:
the vector `log_S[:, j]`. -/
def melColumn (log_S : ℕ → ℕ → ℚ) (n_mels j : ℕ) : List ℚ :=
  (List.range n_mels).map (fun m => log_S m j)

/-- Modelled from the spec: `sound_tools.extract_signal_features` (in
the repository's `tools/sound_tools.py`, not available here), given the
log-Mel spectrogram `log_S` of shape `(n_mels, T)`: the output has
`T - frames + 1` rows (none when `T < frames`), and row `i` is the
concatenation, for `f` in `0..frames-1`, of column `log_S[:, i+f]`, in
increasing order of `f`. -/
def extract_signal_features (log_S : ℕ → ℕ → ℚ) (n_mels T frames : ℕ) :
    List (List ℚ) :=
  (List.range (T + 1 - frames)).map (fun i =>
    (List.range frames).flatMap (fun f => melColumn log_S n_mels (i + f)))

/-! ## Helper lemmas -/

theorem bdim_self (a : ℕ) : bdim a a = a := by
  unfold bdim
  split <;> simp_all

theorem bIdx_of_lt {n i : ℕ} (h : i < n) : bIdx n i = i := by
  unfold bIdx
  split
  · omega
  · rfl

/-- The two in-place assignments of the sweep body together cover every
row: afterwards each row's `Prediction` is `0` when its error is at or
below the threshold and `1` otherwise. -/
theorem assignPredictions_eq_map (th : ℚ) (df : List Row) :
    assignPredictions th df
      = df.map (fun r => ⟨r.error, r.label, some (if r.error ≤ th then 0 else 1)⟩) := by
  unfold assignPredictions
  rw [List.map_map]
  apply List.map_congr_left
  intro r _
  by_cases h : r.error ≤ th
  · simp [Function.comp, h, not_lt.2 h]
  · simp [Function.comp, h, not_le.1 h]

theorem pairsOf_assign (th : ℚ) (df : List Row) :
    pairsOf (assignPredictions th df) = pairsOf df := by
  rw [assignPredictions_eq_map]
  unfold pairsOf
  rw [List.map_map]
  rfl

theorem fpSum_assign (th : ℚ) (df : List Row) :
    fpSum (assignPredictions th df) = fpAt (pairsOf df) th := by
  rw [assignPredictions_eq_map]
  unfold fpSum fpAt pairsOf
  rw [List.countP_map, List.countP_map]
  apply List.countP_congr
  intro r _
  by_cases h : r.error ≤ th
  · simp [fpFlag, Function.comp, h, not_lt.2 h]
  · simp [fpFlag, Function.comp, h, not_le.1 h]

theorem fnSum_assign (th : ℚ) (df : List Row) :
    fnSum (assignPredictions th df) = fnAt (pairsOf df) th := by
  rw [assignPredictions_eq_map]
  unfold fnSum fnAt pairsOf
  rw [List.countP_map, List.countP_map]
  apply List.countP_congr
  intro r _
  by_cases h : r.error ≤ th
  · simp [fnFlag, Function.comp, h]
  · simp [fnFlag, Function.comp, h, not_le.1 h]

/-- The sweep loop, despite threading the mutated dataframe from one
iteration to the next, records at each threshold exactly the counts
determined by the error/label data and that threshold. -/
theorem sweep_eq_map (df : List Row) (ths : List ℚ) :
    sweep df ths
      = ths.map (fun th => (th, fpAt (pairsOf df) th, fnAt (pairsOf df) th)) := by
  induction ths generalizing df with
  | nil => rfl
  | cons th rest ih =>
    simp only [sweep, List.map_cons]
    rw [fpSum_assign, fnSum_assign, ih, pairsOf_assign]

/-! ## Claim theorems -/

/-- C1: for feature matrices of identical (positive) shape, the
notebook's `mse` equals the mean over rows of the per-row mean over
columns of the squared element-wise difference, and this single scalar
is non-negative. -/
theorem C1_mse_is_mean_of_row_means (A B : Mat) (hr : A.rows = B.rows)
    (hc : A.cols = B.cols) (_h1 : 0 < A.rows) (_h2 : 0 < A.cols) :
    mse A B = some (specScore A B) ∧ 0 ≤ specScore A B := by
  constructor
  · unfold mse npSquareDiff
    rw [if_pos ⟨Or.inl hr, Or.inl hc⟩]
    simp only [Option.map_some']
    congr 1
    unfold npMean npMeanAxis1 specScore
    rw [← hr, ← hc, bdim_self, bdim_self]
    simp only [List.length_map, List.length_range]
    congr 1
    refine congrArg List.sum (List.map_congr_left ?_)
    intro i hi
    have hi' : i < A.rows := List.mem_range.1 hi
    congr 1
    refine congrArg List.sum (List.map_congr_left ?_)
    intro j hj
    have hj' : j < A.cols := List.mem_range.1 hj
    simp only [bIdx_of_lt hi', bIdx_of_lt hj']
  · unfold specScore
    apply div_nonneg
    · apply List.sum_nonneg
      intro x hx
      obtain ⟨i, _, rfl⟩ := List.mem_map.1 hx
      apply div_nonneg
      · apply List.sum_nonneg
        intro y hy
        obtain ⟨j, _, rfl⟩ := List.mem_map.1 hy
        exact sq_nonneg _
      · exact Nat.cast_nonneg _
    · exact Nat.cast_nonneg _

/-- Witness for C1 at a concrete pair of 2×2 matrices. -/
theorem C1_witness :
    mse (Mat.ofList [[1, 2], [3, 4]]) (Mat.ofList [[0, 0], [0, 0]])
        = some (specScore (Mat.ofList [[1, 2], [3, 4]]) (Mat.ofList [[0, 0], [0, 0]]))
      ∧ 0 ≤ specScore (Mat.ofList [[1, 2], [3, 4]]) (Mat.ofList [[0, 0], [0, 0]]) :=
  C1_mse_is_mean_of_row_means _ _ rfl rfl (by decide) (by decide)

/-- C2: after the notebook's pair of `Prediction` assignments at
threshold `th`, a row is predicted `0` (normal) exactly when its
reconstruction error is `≤ th` and `1` (abnormal) exactly when it is
`> th`; in particular an error equal to the threshold is classified
normal. -/
theorem C2_decision_rule (th : ℚ) (df : List Row) (r : Row)
    (hmem : r ∈ assignPredictions th df) :
    (r.pred = some 0 ↔ r.error ≤ th) ∧ (r.pred = some 1 ↔ th < r.error)
      ∧ (r.error = th → r.pred = some 0) := by
  rw [assignPredictions_eq_map] at hmem
  obtain ⟨r0, _, rfl⟩ := List.mem_map.1 hmem
  by_cases h : r0.error ≤ th
  · simp [h, not_lt.2 h]
  · refine ⟨?_, ?_, ?_⟩
    · simp [h]
    · simp [h, not_le.1 h]
    · exact fun he => absurd he.le h

/-- Witness for C2 at a concrete dataframe with an error exactly at the
threshold. -/
theorem C2_witness :
    ((Row.mk 1 0 (some 0)).pred = some 0 ↔ (Row.mk 1 0 (some 0)).error ≤ 1)
      ∧ ((Row.mk 1 0 (some 0)).pred = some 1 ↔ 1 < (Row.mk 1 0 (some 0)).error)
      ∧ ((Row.mk 1 0 (some 0)).error = 1 → (Row.mk 1 0 (some 0)).pred = some 0) :=
  C2_decision_rule 1 [⟨1, 0, none⟩] ⟨1, 0, some 0⟩ (by decide)

/-- C5 counterexample: two matrices of different shapes — (1,2) versus
(2,2) — are silently broadcast by `np.square(A - B)` and the notebook's
`mse` produces the numeric score `5` instead of failing. -/
theorem C5_counterexample :
    (Mat.ofList [[0, 0]]).rows ≠ (Mat.ofList [[1, 1], [3, 3]]).rows
      ∧ mse (Mat.ofList [[0, 0]]) (Mat.ofList [[1, 1], [3, 3]]) = some 5 := by
  constructor
  · decide
  · show mse (Mat.ofList [[0, 0]]) (Mat.ofList [[1, 1], [3, 3]]) = some 5
    unfold mse npSquareDiff npMean npMeanAxis1 Mat.ofList bcCompat bdim bIdx
    norm_num [List.range_succ]

/-- C5 amended: the comparison fails (NumPy raises) exactly when the
shapes are not broadcast-compatible; shapes that differ but are
broadcast-compatible are silently coerced and produce a numeric
score. -/
theorem C5_amended_broadcast (A B : Mat) (_hA : 0 < A.rows) (_hA2 : 0 < A.cols)
    (_hB : 0 < B.rows) (_hB2 : 0 < B.cols) :
    (mse A B = none ↔ ¬ (bcCompat A.rows B.rows ∧ bcCompat A.cols B.cols))
      ∧ ((bcCompat A.rows B.rows ∧ bcCompat A.cols B.cols)
          → ∃ q : ℚ, mse A B = some q) := by
  unfold mse npSquareDiff
  by_cases h : bcCompat A.rows B.rows ∧ bcCompat A.cols B.cols <;> simp [h]

/-- Witness for C5 at the concrete broadcastable pair of the
counterexample. -/
theorem C5_witness :
    (mse (Mat.ofList [[0, 0]]) (Mat.ofList [[1, 1], [3, 3]]) = none
        ↔ ¬ (bcCompat (Mat.ofList [[0, 0]]).rows (Mat.ofList [[1, 1], [3, 3]]).rows
              ∧ bcCompat (Mat.ofList [[0, 0]]).cols (Mat.ofList [[1, 1], [3, 3]]).cols))
      ∧ ((bcCompat (Mat.ofList [[0, 0]]).rows (Mat.ofList [[1, 1], [3, 3]]).rows
            ∧ bcCompat (Mat.ofList [[0, 0]]).cols (Mat.ofList [[1, 1], [3, 3]]).cols)
          → ∃ q : ℚ, mse (Mat.ofList [[0, 0]]) (Mat.ofList [[1, 1], [3, 3]]) = some q) :=
  C5_amended_broadcast _ _ (by decide) (by decide) (by decide) (by decide)

/-- C6: for a fixed dataframe, raising the threshold can only lower the
false-positive count and raise the false-negative count. -/
theorem C6_threshold_monotonicity (df : List Row) (th1 th2 : ℚ) (h : th1 < th2) :
    fpSum (assignPredictions th2 df) ≤ fpSum (assignPredictions th1 df)
      ∧ fnSum (assignPredictions th1 df) ≤ fnSum (assignPredictions th2 df) := by
  rw [fpSum_assign, fpSum_assign, fnSum_assign, fnSum_assign]
  constructor
  · apply List.countP_mono_left
    intro p _ hp
    simp only [decide_eq_true_eq] at hp ⊢
    exact ⟨hp.1, lt_trans h hp.2⟩
  · apply List.countP_mono_left
    intro p _ hp
    simp only [decide_eq_true_eq] at hp ⊢
    exact ⟨hp.1, le_trans hp.2 h.le⟩

/-- Witness for C6 at a concrete dataframe and threshold pair. -/
theorem C6_witness :
    fpSum (assignPredictions 1 [⟨1, 0, none⟩, ⟨2, 1, none⟩])
        ≤ fpSum (assignPredictions 0 [⟨1, 0, none⟩, ⟨2, 1, none⟩])
      ∧ fnSum (assignPredictions 0 [⟨1, 0, none⟩, ⟨2, 1, none⟩])
        ≤ fnSum (assignPredictions 1 [⟨1, 0, none⟩, ⟨2, 1, none⟩]) :=
  C6_threshold_monotonicity [⟨1, 0, none⟩, ⟨2, 1, none⟩] 0 1 (by decide)

/-- C7: after the notebook's post-split filtering, no training path
occurs in `abnormal_files` and every training label is zero. -/
theorem C7_training_set_clean (train_files abnormal_files : List String) :
    (∀ p ∈ (build_split train_files abnormal_files).1, p ∉ abnormal_files)
      ∧ (∀ l ∈ (build_split train_files abnormal_files).2, l = 0) := by
  constructor
  · intro p hp
    unfold build_split at hp
    have := List.of_mem_filter hp
    simpa using this
  · intro l hl
    unfold build_split at hl
    exact List.eq_of_mem_replicate hl

/-- Witness for C7 at a concrete file list. -/
theorem C7_witness : "a" ∉ ["b"] :=
  (C7_training_set_clean ["a", "b"] ["b"]).1 "a" (by decide)

/-- C10: the sweep's recorded counts are a pure function of the
error/label data and each threshold alone — the in-place `Prediction`
mutation and the order of earlier iterations leave no trace. -/
theorem C10_sweep_counts_pure (df : List Row) (ths : List ℚ) :
    sweep df ths
      = ths.map (fun th => (th, fpAt (pairsOf df) th, fnAt (pairsOf df) th)) :=
  sweep_eq_map df ths

theorem arange_stop_ceil (tmin tmax tstep : ℚ) (h2 : 0 < tstep) :
    ⌈(tmax + tstep - tmin) / tstep⌉ = ⌈(tmax - tmin) / tstep⌉ + 1 := by
  have h : (tmax + tstep - tmin) / tstep = (tmax - tmin) / tstep + 1 := by
    field_simp
    ring
  rw [h, Int.ceil_add_one]

/-- C3: with `threshold_min ≤ threshold_max` and `threshold_step > 0`,
`np.arange(threshold_min, threshold_max + threshold_step,
threshold_step)` is the ascending arithmetic progression starting at
`threshold_min`, bounded strictly by `threshold_max + threshold_step`,
reaching a value `≥ threshold_max`; the sweep then emits one
`(threshold, FP, FN)` triple per swept value, in threshold order. -/
theorem C3_sweep_inclusive (tmin tmax tstep : ℚ) (errors labels : List ℚ)
    (h1 : tmin ≤ tmax) (h2 : 0 < tstep) :
    (∀ i (hi : i < (arange tmin (tmax + tstep) tstep).length),
        (arange tmin (tmax + tstep) tstep).get ⟨i, hi⟩ = tmin + (i : ℚ) * tstep)
      ∧ (arange tmin (tmax + tstep) tstep).Pairwise (· < ·)
      ∧ (∃ t ∈ arange tmin (tmax + tstep) tstep, tmax ≤ t)
      ∧ (∀ t ∈ arange tmin (tmax + tstep) tstep, t < tmax + tstep)
      ∧ sweep (mkRows errors labels) (arange tmin (tmax + tstep) tstep)
          = (arange tmin (tmax + tstep) tstep).map
              (fun th => (th, fpAt (pairsOf (mkRows errors labels)) th,
                              fnAt (pairsOf (mkRows errors labels)) th)) := by
  have hstep : tstep ≠ 0 := ne_of_gt h2
  have hc0 : (0 : ℤ) ≤ ⌈(tmax - tmin) / tstep⌉ :=
    Int.ceil_nonneg (div_nonneg (sub_nonneg.2 h1) h2.le)
  have hlist : arange tmin (tmax + tstep) tstep
      = (List.range ((⌈(tmax - tmin) / tstep⌉).toNat + 1)).map
          (fun i : ℕ => tmin + (i : ℚ) * tstep) := by
    unfold arange
    rw [arange_stop_ceil tmin tmax tstep h2,
      show (⌈(tmax - tmin) / tstep⌉ + 1).toNat = (⌈(tmax - tmin) / tstep⌉).toNat + 1
        from by omega]
  have hcast : (((⌈(tmax - tmin) / tstep⌉).toNat : ℚ)) = ((⌈(tmax - tmin) / tstep⌉ : ℤ) : ℚ) := by
    exact_mod_cast congrArg (fun z : ℤ => (z : ℚ)) (Int.toNat_of_nonneg hc0)
  refine ⟨?_, ?_, ?_, ?_, ?_⟩
  · intro i hi
    simp [arange, List.get_eq_getElem]
  · rw [hlist]
    refine List.Pairwise.map _ ?_ (List.pairwise_lt_range _)
    intro a b hab
    have hq : (a : ℚ) < b := by exact_mod_cast hab
    have := mul_lt_mul_of_pos_right hq h2
    linarith
  · refine ⟨tmin + (⌈(tmax - tmin) / tstep⌉).toNat * tstep, ?_, ?_⟩
    · rw [hlist]
      exact List.mem_map.2 ⟨_, List.mem_range.2 (Nat.lt_succ_self _), rfl⟩
    · have hle : (tmax - tmin) / tstep ≤ ((⌈(tmax - tmin) / tstep⌉ : ℤ) : ℚ) :=
        Int.le_ceil _
      have hmul := mul_le_mul_of_nonneg_right hle h2.le
      rw [div_mul_cancel₀ _ hstep] at hmul
      rw [hcast]
      linarith
  · intro t ht
    rw [hlist] at ht
    obtain ⟨i, hiR, rfl⟩ := List.mem_map.1 ht
    have h3 : i ≤ (⌈(tmax - tmin) / tstep⌉).toNat := Nat.lt_succ_iff.mp (List.mem_range.1 hiR)
    have h4 : ((i : ℤ)) ≤ ⌈(tmax - tmin) / tstep⌉ := by omega
    have h5 : (i : ℚ) ≤ ((⌈(tmax - tmin) / tstep⌉ : ℤ) : ℚ) := by exact_mod_cast h4
    have h6 : ((⌈(tmax - tmin) / tstep⌉ : ℤ) : ℚ) < (tmax - tmin) / tstep + 1 :=
      Int.ceil_lt_add_one _
    have h7 : (i : ℚ) < (tmax - tmin) / tstep + 1 := lt_of_le_of_lt h5 h6
    have hmul := mul_lt_mul_of_pos_right h7 h2
    rw [add_mul, div_mul_cancel₀ _ hstep, one_mul] at hmul
    linarith
  · exact sweep_eq_map _ _

/-- Witness for C3: the sweep over `np.arange(5, 10 + 1, 1)` on a
concrete two-signal dataframe. -/
theorem C3_witness :
    sweep (mkRows [1, 9] [0, 0]) (arange 5 (10 + 1) 1)
      = (arange 5 (10 + 1) 1).map
          (fun th => (th, fpAt (pairsOf (mkRows [1, 9] [0, 0])) th,
                          fnAt (pairsOf (mkRows [1, 9] [0, 0])) th)) :=
  (C3_sweep_inclusive 5 10 1 [1, 9] [0, 0] (by decide) (by decide)).2.2.2.2

/-- C4 counterexample: on a dataframe whose single signal is abnormal
and scored below the threshold, `tp + fp = 0` and the notebook's
unguarded `precision = tp / (tp + fp)` evaluates to NaN, which then
propagates silently into the F1 score — no sentinel, no exception. -/
theorem C4_counterexample :
    (metricsAt [⟨1, 1, none⟩] 5).1 = NpFloat.nan
      ∧ (metricsAt [⟨1, 1, none⟩] 5).2.2.2 = NpFloat.nan := by
  have h : evaluate_at [⟨1, 1, none⟩] 5 = (0, 0, 1, 0) := by decide
  constructor <;>
  · simp only [metricsAt, h]
    norm_num [NpFloat.div, NpFloat.mul, NpFloat.add]

/-- C4 amended: the four metrics are computed by the stated formulas
with no division-by-zero guard: whenever a denominator is zero the
metric is NaN — for F1 this covers both a NaN precision or recall
propagating unlabeled into it and F1's own zero denominator, when
precision and recall are both defined and sum to zero. -/
theorem C4_amended_unguarded_metrics (df : List Row) (th : ℚ) (tp tn fn fp : ℕ)
    (hc : evaluate_at df th = (tp, tn, fn, fp)) :
    ((tp + fp ≠ 0
        → (metricsAt df th).1 = NpFloat.num ((tp : ℚ) / ((tp : ℚ) + (fp : ℚ))))
      ∧ (tp + fp = 0 → (metricsAt df th).1 = NpFloat.nan))
    ∧ ((tp + fn ≠ 0
        → (metricsAt df th).2.1 = NpFloat.num ((tp : ℚ) / ((tp : ℚ) + (fn : ℚ))))
      ∧ (tp + fn = 0 → (metricsAt df th).2.1 = NpFloat.nan))
    ∧ ((tp + tn + fp + fn ≠ 0
        → (metricsAt df th).2.2.1
          = NpFloat.num (((tp : ℚ) + (tn : ℚ))
              / ((tp : ℚ) + (tn : ℚ) + (fp : ℚ) + (fn : ℚ))))
      ∧ (tp + tn + fp + fn = 0 → (metricsAt df th).2.2.1 = NpFloat.nan))
    ∧ ((tp + fp = 0 ∨ tp + fn = 0 → (metricsAt df th).2.2.2 = NpFloat.nan)
      ∧ (tp + fp ≠ 0 → tp + fn ≠ 0
          → (tp : ℚ) / ((tp : ℚ) + (fp : ℚ)) + (tp : ℚ) / ((tp : ℚ) + (fn : ℚ)) = 0
          → (metricsAt df th).2.2.2 = NpFloat.nan)
      ∧ (tp + fp ≠ 0 → tp + fn ≠ 0
          → (tp : ℚ) / ((tp : ℚ) + (fp : ℚ)) + (tp : ℚ) / ((tp : ℚ) + (fn : ℚ)) ≠ 0
          → (metricsAt df th).2.2.2
            = NpFloat.num (2 * ((tp : ℚ) / ((tp : ℚ) + (fp : ℚ)))
                * ((tp : ℚ) / ((tp : ℚ) + (fn : ℚ)))
                / ((tp : ℚ) / ((tp : ℚ) + (fp : ℚ))
                    + (tp : ℚ) / ((tp : ℚ) + (fn : ℚ)))))) := by
  have castne : ∀ a b : ℕ, a + b ≠ 0 → ((a : ℚ) + (b : ℚ)) ≠ 0 := by
    intro a b hab
    exact_mod_cast hab
  have casteq : ∀ a b : ℕ, a + b = 0 → ((a : ℚ) + (b : ℚ)) = 0 := by
    intro a b hab
    exact_mod_cast hab
  have castne4 : ∀ a b c d : ℕ, a + b + c + d ≠ 0
      → ((a : ℚ) + (b : ℚ) + (c : ℚ) + (d : ℚ)) ≠ 0 := by
    intro a b c d hab
    exact_mod_cast hab
  have casteq4 : ∀ a b c d : ℕ, a + b + c + d = 0
      → ((a : ℚ) + (b : ℚ) + (c : ℚ) + (d : ℚ)) = 0 := by
    intro a b c d hab
    exact_mod_cast hab
  refine ⟨⟨?_, ?_⟩, ⟨?_, ?_⟩, ⟨?_, ?_⟩, ?_, ?_, ?_⟩
  · intro h
    simp only [metricsAt, hc]
    simp [NpFloat.div, castne tp fp h]
  · intro h
    simp only [metricsAt, hc]
    simp [NpFloat.div, casteq tp fp h]
  · intro h
    simp only [metricsAt, hc]
    simp [NpFloat.div, castne tp fn h]
  · intro h
    simp only [metricsAt, hc]
    simp [NpFloat.div, casteq tp fn h]
  · intro h
    simp only [metricsAt, hc]
    simp [NpFloat.div, castne4 tp tn fp fn h]
  · intro h
    simp only [metricsAt, hc]
    simp [NpFloat.div, casteq4 tp tn fp fn h]
  · intro h
    simp only [metricsAt, hc]
    rcases h with h | h
    · simp [NpFloat.div, NpFloat.mul, NpFloat.add, casteq tp fp h]
    · simp [NpFloat.div, NpFloat.mul, NpFloat.add, casteq tp fn h]
  · intro hp hr hpr0
    simp only [metricsAt, hc]
    simp [NpFloat.div, NpFloat.mul, NpFloat.add, castne tp fp hp, castne tp fn hr, hpr0]
  · intro hp hr hpr
    simp only [metricsAt, hc]
    simp [NpFloat.div, NpFloat.mul, NpFloat.add, castne tp fp hp, castne tp fn hr, hpr]

/-- Witness for C4 at a concrete dataframe where `tp + fp = 1 ≠ 0`, so
the unguarded precision is a plain number. -/
theorem C4_witness :
    (metricsAt [⟨1, 1, none⟩, ⟨9, 0, none⟩] 5).1
      = NpFloat.num (((0 : ℕ) : ℚ) / (((0 : ℕ) : ℚ) + ((1 : ℕ) : ℚ))) :=
  (C4_amended_unguarded_metrics [⟨1, 1, none⟩, ⟨9, 0, none⟩] 5 0 0 1 1
    (by decide)).1.1 (by decide)

/-- C8: at any threshold, the four counts of the notebook's evaluation
cell partition the dataframe: `tp + tn + fn + fp` equals the number of
samples, provided every ground-truth label is 0 or 1. -/
theorem C8_confusion_identity (df : List Row) (th : ℚ)
    (hl : ∀ r ∈ df, r.label = 0 ∨ r.label = 1) :
    (evaluate_at df th).1 + (evaluate_at df th).2.1 + (evaluate_at df th).2.2.1
      + (evaluate_at df th).2.2.2 = df.length := by
  have key : ∀ l : List Row, (∀ r ∈ l, r.label = 0 ∨ r.label = 1) →
      tpSum (assignPredictions th l) + tnSum (assignPredictions th l)
        + fnSum (assignPredictions th l) + fpSum (assignPredictions th l)
        = l.length := by
    intro l
    induction l with
    | nil => intro _; rfl
    | cons r rest ih =>
      intro hl2
      have hr := hl2 r (List.mem_cons_self r rest)
      have hrest : ∀ x ∈ rest, x.label = 0 ∨ x.label = 1 :=
        fun x hx => hl2 x (List.mem_cons_of_mem r hx)
      have hcons : assignPredictions th (r :: rest)
          = (⟨r.error, r.label, some (if r.error ≤ th then 0 else 1)⟩ : Row)
              :: assignPredictions th rest := by
        rw [assignPredictions_eq_map, assignPredictions_eq_map, List.map_cons]
      have ih2 := ih hrest
      unfold tpSum tnSum fnSum fpSum at ih2 ⊢
      rw [hcons]
      simp only [List.countP_cons, List.length_cons]
      rcases hr with h0 | h1
      · by_cases hcth : r.error ≤ th
        · simp only [tpFlag, tnFlag, fpFlag, fnFlag, h0, hcth]
          norm_num
          omega
        · simp only [tpFlag, tnFlag, fpFlag, fnFlag, h0, hcth]
          norm_num
          omega
      · by_cases hcth : r.error ≤ th
        · simp only [tpFlag, tnFlag, fpFlag, fnFlag, h1, hcth]
          norm_num
          omega
        · simp only [tpFlag, tnFlag, fpFlag, fnFlag, h1, hcth]
          norm_num
          omega
  exact key df hl

/-- Witness for C8 at a concrete two-signal dataframe. -/
theorem C8_witness :
    (evaluate_at [⟨1, 0, none⟩, ⟨2, 1, none⟩] 2).1
        + (evaluate_at [⟨1, 0, none⟩, ⟨2, 1, none⟩] 2).2.1
        + (evaluate_at [⟨1, 0, none⟩, ⟨2, 1, none⟩] 2).2.2.1
        + (evaluate_at [⟨1, 0, none⟩, ⟨2, 1, none⟩] 2).2.2.2
      = ([⟨1, 0, none⟩, ⟨2, 1, none⟩] : List Row).length :=
  C8_confusion_identity [⟨1, 0, none⟩, ⟨2, 1, none⟩] 2 (by decide)

theorem melColumn_length (log_S : ℕ → ℕ → ℚ) (n_mels j : ℕ) :
    (melColumn log_S n_mels j).length = n_mels := by
  simp [melColumn]

/-- Reading a flattened list of equal-length blocks at flat index
`f * b + m` lands in block `f` at offset `m`. -/
theorem flatten_getD_uniform (b : ℕ) (d : ℚ) :
    ∀ L : List (List ℚ), (∀ l ∈ L, l.length = b) →
      ∀ f m, f < L.length → m < b →
        L.flatten.getD (f * b + m) d = (L.getD f []).getD m d := by
  intro L
  induction L with
  | nil =>
    intro _ f m hf _
    simp at hf
  | cons l rest ih =>
    intro hb f m hf hm
    have hl : l.length = b := hb l (List.mem_cons_self l rest)
    cases f with
    | zero =>
      rw [List.flatten_cons]
      simp only [Nat.zero_mul, Nat.zero_add, List.getD_cons_zero]
      rw [List.getD_append]
      omega
    | succ f2 =>
      have hexp : (f2 + 1) * b = f2 * b + b := by ring
      rw [List.flatten_cons]
      rw [List.getD_append_right _ _ _ _ (by omega)]
      rw [show (f2 + 1) * b + m - l.length = f2 * b + m from by omega]
      rw [List.getD_cons_succ]
      exact ih (fun x hx => hb x (List.mem_cons_of_mem l hx)) f2 m
        (by simpa using Nat.lt_of_succ_lt_succ (by simpa using hf)) hm

theorem extract_signal_features_get (log_S : ℕ → ℕ → ℚ) (n_mels T frames i : ℕ)
    (hi : i < (extract_signal_features log_S n_mels T frames).length) :
    (extract_signal_features log_S n_mels T frames).get ⟨i, hi⟩
      = ((List.range frames).map (fun f => melColumn log_S n_mels (i + f))).flatten := by
  simp [extract_signal_features, List.get_eq_getElem, List.flatMap_def]

/-- C9: given the log-Mel spectrogram `log_S` of shape `(n_mels, T)`,
the extracted feature matrix has `max 0 (T - frames + 1)` rows and
`n_mels * frames` columns; row `i` is the concatenation of columns
`log_S[:, i], ..., log_S[:, i+frames-1]` in increasing order of offset
(entry `f * n_mels + m` of row `i` is `log_S[m, i+f]`), and a short
spectrogram (`T < frames`) yields the empty matrix rather than an
error. -/
theorem C9_extract_features_shape (log_S : ℕ → ℕ → ℚ) (n_mels T frames : ℕ)
    (_hm : 0 < n_mels) (_hf : 0 < frames) :
    ((extract_signal_features log_S n_mels T frames).length = T + 1 - frames)
    ∧ (((extract_signal_features log_S n_mels T frames).length : ℤ)
        = max 0 ((T : ℤ) - (frames : ℤ) + 1))
    ∧ (∀ row ∈ extract_signal_features log_S n_mels T frames,
        row.length = n_mels * frames)
    ∧ (∀ i (hi : i < (extract_signal_features log_S n_mels T frames).length),
        (extract_signal_features log_S n_mels T frames).get ⟨i, hi⟩
          = ((List.range frames).map (fun f => melColumn log_S n_mels (i + f))).flatten)
    ∧ (∀ i (hi : i < (extract_signal_features log_S n_mels T frames).length),
        ∀ f m, f < frames → m < n_mels →
          ((extract_signal_features log_S n_mels T frames).get ⟨i, hi⟩).getD
              (f * n_mels + m) 0
            = log_S m (i + f))
    ∧ (T < frames → extract_signal_features log_S n_mels T frames = []) := by
  have hlen : (extract_signal_features log_S n_mels T frames).length = T + 1 - frames := by
    simp [extract_signal_features]
  refine ⟨hlen, ?_, ?_, ?_, ?_, ?_⟩
  · rw [hlen]
    omega
  · intro row hrow
    simp only [extract_signal_features, List.mem_map] at hrow
    obtain ⟨i, _, rfl⟩ := hrow
    rw [List.flatMap_def, List.length_flatten, List.map_map]
    have hconst : (List.map (List.length ∘ fun f => melColumn log_S n_mels (i + f))
        (List.range frames)) = List.replicate frames n_mels := by
      have : (List.length ∘ fun f => melColumn log_S n_mels (i + f))
          = fun _ : ℕ => n_mels := by
        funext f
        simp [melColumn]
      rw [this, List.map_const', List.length_range]
    rw [hconst, List.sum_replicate, smul_eq_mul]
    exact Nat.mul_comm frames n_mels
  · intro i hi
    exact extract_signal_features_get log_S n_mels T frames i hi
  · intro i hi f m hfr hml
    rw [extract_signal_features_get log_S n_mels T frames i hi]
    rw [flatten_getD_uniform n_mels 0 _ ?hb f m ?hflt hml]
    case hb =>
      intro l hl
      obtain ⟨f2, _, rfl⟩ := List.mem_map.1 hl
      exact melColumn_length log_S n_mels (i + f2)
    case hflt => simpa using hfr
    rw [List.getD_eq_getElem
      ((List.range frames).map (fun f => melColumn log_S n_mels (i + f))) []
      (by simpa using hfr)]
    simp only [List.getElem_map, List.getElem_range]
    rw [List.getD_eq_getElem (melColumn log_S n_mels (i + f)) 0
      (by simpa [melColumn] using hml)]
    simp [melColumn]
  · intro hTf
    have : (extract_signal_features log_S n_mels T frames).length = 0 := by
      rw [hlen]
      omega
    exact List.eq_nil_of_length_eq_zero this

/-- Witness for C9 at the spec's concrete scenario dimensions
(`n_mels = 2`, `frames = 2`, `T = 4`). -/
theorem C9_witness :
    (extract_signal_features (fun m t => (m : ℚ) * 10 + (t : ℚ)) 2 4 2).length
      = 4 + 1 - 2 :=
  (C9_extract_features_shape (fun m t => (m : ℚ) * 10 + (t : ℚ)) 2 4 2
    (by decide) (by decide)).1

/-- Concrete windowing scenario: a 2×4 log-spectrogram
`[[a,b,c,d],[e,f,g,h]] = [[0,1,2,3],[10,11,12,13]]` yields the three
feature rows `[a,e,b,f], [b,f,c,g], [c,g,d,h]`. -/
theorem extract_features_scenario :
    extract_signal_features
        (fun m t => (([[0, 1, 2, 3], [10, 11, 12, 13]] : List (List ℚ)).getD m []).getD t 0)
        2 4 2
      = [[0, 10, 1, 11], [1, 11, 2, 12], [2, 12, 3, 13]] := by
  decide
